import Mathlib

/-!
# Verification of the WabiSaby plugin SDK command router

Shallow embedding of `router.go` and `command.go` from the
`wabisaby-plugin-sdk-go` repository: the command registry, handler
signature validation (`Register`), argument binding and invocation
(`invokeHandler`), and routing (`Route`).

Untyped wire arguments (`interface{}` values decoded from JSON) are
modelled by the inductive `Value`; Go's `reflect` view of a handler's
type is modelled by `GoType`; the JSON marshal/unmarshal round trip
used for structural coercion is modelled by `unmarshalStruct`.
-/

set_option maxHeartbeats 1000000

/-- An untyped wire-level value (`interface{}` holding JSON-decodable
data): null, booleans, numbers, strings, keyed objects
(`map[string]interface{}`), and arrays (`[]interface{}`). -/
inductive Value : Type where
  | null : Value
  | bool (b : Bool) : Value
  | num (n : Int) : Value
  | str (s : String) : Value
  | obj (fields : List (String × Value)) : Value
  | arr (elems : List Value) : Value
deriving Repr

/-- A keyed object: the `map[string]interface{}` intermediate form.
Represented as an association list with at most one entry per key. -/
abbrev StrMap := List (String × Value)

/-- Lookup in a keyed object (Go map indexing `m[k]`). -/
def mapLookup : StrMap → String → Option Value
  | [], _ => none
  | (k, v) :: rest, n => if k = n then some v else mapLookup rest n

/-- Go map assignment `m[k] = v`: replace the entry for `k` if present,
otherwise add one. -/
def mapInsert : StrMap → String → Value → StrMap
  | [], k, v => [(k, v)]
  | (k', v') :: rest, k, v =>
      if k' = k then (k, v) :: rest else (k', v') :: mapInsert rest k v

/-- The JSON-relevant type of one field of a target argument struct
(the struct a handler's second parameter points to). -/
inductive FieldType : Type where
  | tStr : FieldType
  | tInt : FieldType
  | tBool : FieldType
  | tAny : FieldType
deriving Repr, DecidableEq

/-- One field of a target argument struct: its effective JSON name and
its type. -/
structure FieldSpec : Type where
  name : String
  ftype : FieldType
deriving Repr, DecidableEq

/-- The zero value a freshly allocated (`reflect.New`) struct field
holds: `""`, `0`, `false`, or `nil`. -/
def zeroOf : FieldType → Value
  | .tStr => .str ""
  | .tInt => .num 0
  | .tBool => .bool false
  | .tAny => .null

/-- The zero value of a whole struct shape, field by field (what
`reflect.New(argType)` allocates before any unmarshaling). -/
def zeroRec (s : List FieldSpec) : StrMap :=
  s.map fun f => (f.name, zeroOf f.ftype)

/-- Models `encoding/json` coercion of one source value into one target field
type: matching scalar kinds succeed unchanged, `interface{}` accepts
anything, and a kind mismatch is an `UnmarshalTypeError`. -/
def coerceValue : FieldType → Value → Option Value
  | .tStr, .str s => some (.str s)
  | .tInt, .num n => some (.num n)
  | .tBool, .bool b => some (.bool b)
  | .tAny, v => some v
  | _, _ => none

/-- Models `encoding/json` field resolution for a source key: an exact name
match is preferred, otherwise a case-insensitive match is accepted. -/
def fieldFor (s : List FieldSpec) (k : String) : Option FieldSpec :=
  match s.find? (fun f => f.name = k) with
  | some f => some f
  | none => s.find? (fun f => f.name.toLower = k.toLower)

/-- Write a (known-present) field of the typed record being built. -/
def recSet : StrMap → String → Value → StrMap
  | [], _, _ => []
  | (k', v') :: rest, k, v =>
      if k' = k then (k, v) :: recSet rest k v
      else (k', v') :: recSet rest k v

/-- Whether a value is the JSON `null`. -/
def Value.isNull : Value → Bool
  | .null => true
  | _ => false

/-- The `json.Unmarshal` loop over the source object's entries: unknown
keys are skipped, a JSON `null` leaves the field untouched, a matching
key coerces its value into the field or fails the whole unmarshal. -/
def unmarshalInto (s : List FieldSpec) (acc : StrMap) : StrMap → Option StrMap
  | [] => some acc
  | (k, v) :: rest =>
      match fieldFor s k with
      | none => unmarshalInto s acc rest
      | some f =>
          if v.isNull then unmarshalInto s acc rest
          else
            match coerceValue f.ftype v with
            | some v' => unmarshalInto s (recSet acc f.name v') rest
            | none => none

/-- Models `json.Marshal` of the keyed object followed by `json.Unmarshal`
into a freshly zero-allocated struct of shape `s` (router.go lines
154-161): the structural coercion of the argument binder. -/
def unmarshalStruct (s : List FieldSpec) (src : StrMap) : Option StrMap :=
  unmarshalInto s (zeroRec s) src

/-! ## The reflect-level type model -/

/-- The `reflect.Kind` distinctions the router inspects. -/
inductive GoKind : Type where
  | kfunc : GoKind
  | kptr : GoKind
  | kother : GoKind
deriving Repr, DecidableEq

/-- A Go type as the router sees it through `reflect`: a pointer type,
a function type, or a named (defined) type.  A named type carries its
package path, its declared name, whether it implements the `error`
interface, and the JSON field shape of its underlying struct (empty
for non-structs); a pointer type records whether the pointer type
itself implements `error`. -/
inductive GoType : Type where
  | ptr (elem : GoType) (implsError : Bool) : GoType
  | func (ins : List GoType) (outs : List GoType) : GoType
  | named (pkgPath : String) (name : String) (implsError : Bool)
      (shape : List FieldSpec) : GoType
deriving Repr

/-- Models `reflect.Type.Kind()`. -/
def GoType.kind : GoType → GoKind
  | .ptr _ _ => .kptr
  | .func _ _ => .kfunc
  | .named _ _ _ _ => .kother

/-- Models `reflect.Type.Name()` (empty for unnamed pointer/func types). -/
def GoType.tyName : GoType → String
  | .ptr _ _ => ""
  | .func _ _ => ""
  | .named _ n _ _ => n

/-- Models `reflect.Type.Elem().Name()` for a pointer type. -/
def GoType.elemName : GoType → String
  | .ptr e _ => e.tyName
  | _ => ""

/-- Models `t.Implements(errorInterface)`: whether the type's method set
contains `Error() string`.  Function types never have methods. -/
def GoType.implementsError : GoType → Bool
  | .ptr _ b => b
  | .func _ _ => false
  | .named _ _ b _ => b

/-- Models `reflect.Type.NumIn()` (0 on non-funcs; the router checks the kind
first). -/
def GoType.numIn : GoType → Nat
  | .func ins _ => ins.length
  | _ => 0

/-- Models `reflect.Type.NumOut()`. -/
def GoType.numOut : GoType → Nat
  | .func _ outs => outs.length
  | _ => 0

/-- Models `reflect.Type.In(i)` as an option. -/
def GoType.inAt : GoType → Nat → Option GoType
  | .func ins _, i => ins.get? i
  | _, _ => none

/-- Models `reflect.Type.Out(i)` as an option. -/
def GoType.outAt : GoType → Nat → Option GoType
  | .func _ outs, i => outs.get? i
  | _, _ => none

/-- The struct shape behind a named type (empty for non-structs). -/
def GoType.shape : GoType → List FieldSpec
  | .named _ _ _ sh => sh
  | _ => []

/-! ## Handlers, metadata, registry -/

/-- The execution-context capability (`*Context`); opaque to the
router, which only threads it through to handlers. -/
structure Context : Type where
  callId : Nat := 0

/-- A command handler value (`CommandHandler interface{}`): its
reflect type together with its behaviour.  `run` receives the context
and, for two-input handlers, the typed argument record the binder
built (`none` models a one-input handler call); it returns the
handler's two outputs, where `none` in the first component is a nil
first output and `none` in the second is a nil error. -/
structure HandlerV : Type where
  htype : GoType
  run : Context → Option StrMap → Option Value × Option String

/-- Models `ParamType` from command.go. -/
inductive ParamType : Type where
  | string : ParamType
  | int : ParamType
  | float : ParamType
  | bool : ParamType
  | object : ParamType
  | array : ParamType
deriving Repr, DecidableEq

/-- Models `ParameterMetadata` from command.go. -/
structure ParameterMetadata : Type where
  name : String
  type : ParamType := .string
  description : String := ""
  required : Bool := false
  default : Option Value := none
deriving Repr

/-- Models `ReturnTypeMetadata` from command.go. -/
structure ReturnTypeMetadata : Type where
  name : String
  description : String := ""
  schema : List (String × ParamType) := []
deriving Repr

/-- Models `CommandMetadata` from command.go. -/
structure CommandMetadata : Type where
  name : String
  description : String := ""
  parameters : List ParameterMetadata := []
  returnType : Option ReturnTypeMetadata := none
deriving Repr

/-- Models `CommandOption`: a functional option mutating command metadata. -/
abbrev CommandOption := CommandMetadata → CommandMetadata

/-- Models `WithDescription` from command.go. -/
def WithDescription (desc : String) : CommandOption :=
  fun m => { m with description := desc }

/-- Models `WithParameters` from command.go. -/
def WithParameters (params : List ParameterMetadata) : CommandOption :=
  fun m => { m with parameters := params }

/-- Models `registeredCommand` from router.go: metadata, handler, and the
detected argument type (`none` when the handler takes no argument
beyond the context). -/
structure RegisteredCommand : Type where
  metadata : CommandMetadata
  handler : HandlerV
  argType : Option GoType

/-- The router's registry `map[string]*registeredCommand`, as an
association list with at most one entry per name. -/
abbrev Registry := List (String × RegisteredCommand)

/-- Registry lookup `r.commands[name]`. -/
def lookupCmd : Registry → String → Option RegisteredCommand
  | [], _ => none
  | (k, c) :: rest, n => if k = n then some c else lookupCmd rest n

/-- The distinct error outcomes of `Register` (each is a distinct
`fmt.Errorf` message in the source). -/
inductive RegisterError : Type where
  | duplicate (name : String) : RegisterError
  | notFunc (k : GoKind) : RegisterError
  | arity (n : Nat) : RegisterError
  | outputs (n : Nat) : RegisterError
  | firstArg : RegisterError
  | secondOut : RegisterError
deriving Repr, DecidableEq

/-- A placeholder type used only where the source guards guarantee the
value is never inspected. -/
def dummyTy : GoType := .named "" "" false []

/-- The signature validation block of `Register` (router.go lines
59-84), in source order: the handler must be a func, with 1 or 2
inputs, exactly 2 outputs, first input of kind pointer with element
type named `Context`, and second output implementing `error`. -/
def validateHandler (t : GoType) : Option RegisterError :=
  if t.kind ≠ .kfunc then some (.notFunc t.kind)
  else if t.numIn < 1 ∨ 2 < t.numIn then some (.arity t.numIn)
  else if t.numOut ≠ 2 then some (.outputs t.numOut)
  else if ((t.inAt 0).getD dummyTy).kind ≠ .kptr ∨
      ((t.inAt 0).getD dummyTy).elemName ≠ "Context" then some .firstArg
  else if ¬ ((t.outAt 1).getD dummyTy).implementsError then some .secondOut
  else none

/-- Models `Register` (router.go lines 50-109): reject a duplicate name,
validate the handler signature, fold the functional options into fresh
metadata, detect the argument type (dereferencing a pointer second
input), and append the entry.  Returns the updated registry together
with the error, the registry being unchanged on every error path. -/
def Register (r : Registry) (name : String) (h : HandlerV)
    (opts : List CommandOption) : Registry × Option RegisterError :=
  if (lookupCmd r name).isSome then (r, some (.duplicate name))
  else
    match validateHandler h.htype with
    | some e => (r, some e)
    | none =>
        let metadata := opts.foldl (fun m o => o m) { name := name }
        let argType : Option GoType :=
          if h.htype.numIn = 2 then
            match h.htype.inAt 1 with
            | some (.ptr e _) => some e
            | some t => some t
            | none => none
          else none
        (r ++ [(name, { metadata := metadata, handler := h, argType := argType })],
         none)

/-! ## Argument binding and invocation -/

/-- The positional-to-keyed zip of `invokeHandler` (router.go lines
143-151): walk the declared parameters in order with their index; a
raw value at the same index binds to the parameter's name, otherwise a
declared default binds, otherwise nothing is bound.  Walking the
parameter list and the value list together is the structural reading
of the indexed loop. -/
def buildPosAux (m : StrMap) : List ParameterMetadata → List Value → StrMap
  | [], _ => m
  | p :: ps, [] =>
      match p.default with
      | some d => buildPosAux (mapInsert m p.name d) ps []
      | none => buildPosAux m ps []
  | p :: ps, v :: vs => buildPosAux (mapInsert m p.name v) ps vs

/-- The keyed object built from positional arguments (starting from the
empty map `make(map[string]interface{})`). -/
def buildPositional (params : List ParameterMetadata) (args : List Value) : StrMap :=
  buildPosAux [] params args

/-- The source object selection of `invokeHandler` for a non-empty
argument list (router.go lines 139-152): a first value that is already
a keyed object is used directly; otherwise the positional zip runs. -/
def sourceMap (params : List ParameterMetadata) (args : List Value) : StrMap :=
  match args.head? with
  | some (.obj m) => m
  | _ => buildPositional params args

/-- The argument-binding phase of `invokeHandler` (router.go lines
133-166): when the command has a detected argument type and the
handler takes two inputs, allocate the zero struct, and for a
non-empty argument list unmarshal the selected source object into it
(failing with the wrapped unmarshal error); otherwise the handler gets
no second argument. -/
def bindArgs (cmd : RegisteredCommand) (args : List Value) :
    Except String (Option StrMap) :=
  match cmd.argType with
  | some ty =>
      if cmd.handler.htype.numIn = 2 then
        if args.length > 0 then
          match unmarshalStruct ty.shape (sourceMap cmd.metadata.parameters args) with
          | some rec_ => .ok (some rec_)
          | none =>
              .error ("failed to unmarshal arguments to " ++ ty.tyName)
        else .ok (some (zeroRec ty.shape))
      else .ok none
  | none => .ok none

/-- The return-value extraction of `invokeHandler` (router.go lines
171-184): a nil first output is reported as no result, a non-nil first
output is the result; a nil second output is reported as no error, a
non-nil second output is type-asserted to `error` and passed through
verbatim. -/
def extractResults (out : Option Value × Option String) :
    Option Value × Option String :=
  ( match out.1 with
    | some v => some v
    | none => none,
    match out.2 with
    | some e => some e
    | none => none )

/-- Models `invokeHandler` (router.go lines 125-185): bind the arguments,
call the handler, and extract its two outputs. -/
def invokeHandler (ctx : Context) (cmd : RegisteredCommand)
    (args : List Value) : Option Value × Option String :=
  match bindArgs cmd args with
  | .error e => (none, some e)
  | .ok argOpt => extractResults (cmd.handler.run ctx argOpt)

/-- Models `Route` (router.go lines 112-122): look the command up; an absent
name yields the unknown-command error with a nil result, a present one
is invoked. -/
def Route (r : Registry) (ctx : Context) (command : String)
    (args : List Value) : Option Value × Option String :=
  match lookupCmd r command with
  | none => (none, some ("unknown command: " ++ command))
  | some cmd => invokeHandler ctx cmd args

/-- Models `HasCommand` (router.go lines 200-205). -/
def HasCommand (r : Registry) (name : String) : Bool :=
  (lookupCmd r name).isSome

/-- Models `CommandCount` (router.go lines 208-212). -/
def CommandCount (r : Registry) : Nat := r.length

/-- Models `GetCommands` (router.go lines 188-197). -/
def GetCommands (r : Registry) : List CommandMetadata :=
  r.map fun p => p.2.metadata

/-! ## Auxiliary definitions for the statements -/

/-- Replace every registered handler's behaviour, keeping names,
metadata and types; used to express that an outcome does not depend on
any registered handler being run. -/
def reassignHandlers
    (g : Context → Option StrMap → Option Value × Option String)
    (r : Registry) : Registry :=
  r.map fun p => (p.1, { p.2 with handler := { p.2.handler with run := g } })

/-- Replace a registered command's declared parameter metadata. -/
def setParams (cmd : RegisteredCommand) (ps : List ParameterMetadata) :
    RegisteredCommand :=
  { cmd with metadata := { cmd.metadata with parameters := ps } }

/-- The acceptance condition of signature validation as the
specification words it: the handler is a function, it has one or two
inputs, its first input is the `*Context` capability type (a pointer
to a type named `Context`), it has exactly two outputs, and its second
output implements `error`. -/
def specValidSignature (t : GoType) : Bool :=
  match t with
  | .func ins outs =>
      (ins.length == 1 || ins.length == 2) &&
      outs.length == 2 &&
      (match ins.head? with
       | some (.ptr (.named _ nm _ _) _) => nm == "Context"
       | _ => false) &&
      (match outs.get? 1 with
       | some o => o.implementsError
       | none => false)
  | _ => false

/-- A source value already has exactly the type of the target field
(the "already matches the target shape" premise of the round-trip
law). -/
def valueHasType : FieldType → Value → Bool
  | .tStr, .str _ => true
  | .tInt, .num _ => true
  | .tBool, .bool _ => true
  | .tAny, _ => true
  | _, _ => false

/-- The cumulative effect of the unmarshal loop when every source
entry writes its own exactly-named field: apply each non-null entry to
the record in order. -/
def applySrc : StrMap → StrMap → StrMap
  | acc, [] => acc
  | acc, (k, v) :: rest =>
      applySrc (if v.isNull then acc else recSet acc k v) rest

/-! ## Concrete sample values -/

/-- The SDK execution-context type `*sdk.Context` as reflect sees it. -/
def ctxPtrTy : GoType := .ptr (.named "sdk" "Context" false []) false

/-- A sample two-field argument struct shape. -/
def shapeAB : List FieldSpec :=
  [{ name := "a", ftype := .tInt }, { name := "b", ftype := .tInt }]

/-- The named struct type behind a sample handler argument. -/
def argsTy : GoType := .named "main" "Args" false shapeAB

/-- The `error` interface type. -/
def errTy : GoType := .named "" "error" true []

/-- An unnamed interface result type. -/
def anyTy : GoType := .named "" "" false []

/-- A sample valid two-input handler that echoes its typed argument. -/
def sampleHandler : HandlerV :=
  { htype := .func [ctxPtrTy, .ptr argsTy false] [anyTy, errTy],
    run := fun _ argOpt => (argOpt.map (fun r => Value.obj r), none) }

/-- A sample valid one-input handler. -/
def sampleHandler1 : HandlerV :=
  { htype := .func [ctxPtrTy] [anyTy, errTy],
    run := fun _ _ => (some (Value.str "pong"), none) }

/-- Sample parameter metadata: `a` optional with default 1, `b`
required without default. -/
def sampleParams : List ParameterMetadata :=
  [ { name := "a", type := .int, default := some (Value.num 1) },
    { name := "b", type := .int, required := true } ]

/-- A sample registered typed-arg command named `calc`. -/
def sampleCmd : RegisteredCommand :=
  { metadata := { name := "calc", parameters := sampleParams },
    handler := sampleHandler,
    argType := some argsTy }

/-- A one-entry sample registry. -/
def sampleRegistry : Registry := [("calc", sampleCmd)]

/-! ## Lemmas about keyed objects -/

theorem mapLookup_insert_self (m : StrMap) (k : String) (v : Value) :
    mapLookup (mapInsert m k v) k = some v := by
  induction m with
  | nil => simp [mapInsert, mapLookup]
  | cons kv rest ih =>
      obtain ⟨k', v'⟩ := kv
      by_cases h : k' = k
      · simp [mapInsert, h, mapLookup]
      · simp [mapInsert, h, mapLookup, ih]

theorem mapLookup_insert_ne (m : StrMap) (k n : String) (v : Value)
    (h : k ≠ n) : mapLookup (mapInsert m k v) n = mapLookup m n := by
  induction m with
  | nil => simp [mapInsert, mapLookup, h]
  | cons kv rest ih =>
      obtain ⟨k', v'⟩ := kv
      by_cases hk : k' = k
      · subst hk
        simp [mapInsert, mapLookup, h]
      · by_cases hn : k' = n <;>
          simp [mapInsert, mapLookup, hk, hn, ih, Ne.symm h]

theorem recSet_lookup_ne (r : StrMap) (k n : String) (v : Value)
    (h : k ≠ n) : mapLookup (recSet r k v) n = mapLookup r n := by
  induction r with
  | nil => rfl
  | cons kv rest ih =>
      obtain ⟨k', v'⟩ := kv
      by_cases hk : k' = k
      · subst hk
        simp [recSet, mapLookup, h, ih]
      · by_cases hn : k' = n <;>
          simp [recSet, mapLookup, hk, hn, ih, Ne.symm h]

theorem recSet_keys (r : StrMap) (k : String) (v : Value) :
    (recSet r k v).map Prod.fst = r.map Prod.fst := by
  induction r with
  | nil => rfl
  | cons kv rest ih =>
      obtain ⟨k', v'⟩ := kv
      by_cases hk : k' = k <;> simp_all [recSet]

/-! ## Lemmas about the registry -/

theorem lookupCmd_append_of_isSome (r s : Registry) (k : String)
    (h : (lookupCmd r k).isSome) :
    lookupCmd (r ++ s) k = lookupCmd r k := by
  induction r with
  | nil => simp [lookupCmd] at h
  | cons kv rest ih =>
      obtain ⟨k', c⟩ := kv
      by_cases hk : k' = k
      · simp [lookupCmd, hk]
      · simp only [lookupCmd, if_neg hk] at h ⊢
        exact ih h

theorem lookupCmd_reassign_none
    (g : Context → Option StrMap → Option Value × Option String)
    (r : Registry) (c : String) (h : lookupCmd r c = none) :
    lookupCmd (reassignHandlers g r) c = none := by
  induction r with
  | nil => rfl
  | cons kv rest ih =>
      obtain ⟨k', cm⟩ := kv
      by_cases hk : k' = c
      · simp [lookupCmd, hk] at h
      · simp only [lookupCmd, if_neg hk] at h
        simpa [reassignHandlers, lookupCmd, hk] using ih h

/-! ## Lemmas about the positional zip -/

theorem buildPosAux_lookup_not_mem (ps : List ParameterMetadata)
    (args : List Value) (m : StrMap) (k : String)
    (hk : k ∉ ps.map (fun p => p.name)) :
    mapLookup (buildPosAux m ps args) k = mapLookup m k := by
  induction ps generalizing m args with
  | nil => rfl
  | cons p ps ih =>
      simp only [List.map_cons, List.mem_cons, not_or] at hk
      obtain ⟨hk1, hk2⟩ := hk
      cases args with
      | nil =>
          cases hd : p.default with
          | none => simpa [buildPosAux, hd] using ih [] m hk2
          | some d =>
              simp only [buildPosAux, hd]
              rw [ih [] _ hk2, mapLookup_insert_ne _ _ _ _ (fun h => hk1 h.symm)]
      | cons v vs =>
          simp only [buildPosAux]
          rw [ih vs _ hk2, mapLookup_insert_ne _ _ _ _ (fun h => hk1 h.symm)]

theorem buildPosAux_lookup (ps : List ParameterMetadata) (args : List Value)
    (i : Nat) (p : ParameterMetadata) (m : StrMap)
    (hnd : (ps.map (fun q => q.name)).Nodup) (hp : ps.get? i = some p) :
    mapLookup (buildPosAux m ps args) p.name =
      match args.get? i with
      | some v => some v
      | none =>
          match p.default with
          | some d => some d
          | none => mapLookup m p.name := by
  induction ps generalizing m args i with
  | nil => simp [List.get?] at hp
  | cons q ps ih =>
      simp only [List.map_cons, List.nodup_cons] at hnd
      obtain ⟨hq, hnd'⟩ := hnd
      cases i with
      | zero =>
          simp only [List.get?] at hp
          cases hp
          cases args with
          | nil =>
              cases hd : p.default with
              | none =>
                  simp only [buildPosAux, hd, List.get?]
                  exact buildPosAux_lookup_not_mem ps [] m p.name hq
              | some d =>
                  simp only [buildPosAux, hd, List.get?]
                  rw [buildPosAux_lookup_not_mem ps [] _ p.name hq,
                    mapLookup_insert_self]
          | cons v vs =>
              simp only [buildPosAux, List.get?]
              rw [buildPosAux_lookup_not_mem ps vs _ p.name hq,
                mapLookup_insert_self]
      | succ j =>
          simp only [List.get?] at hp
          have hpname : p.name ∈ ps.map (fun q => q.name) :=
            List.mem_map_of_mem _ (List.get?_mem hp)
          have hne : q.name ≠ p.name := fun h => hq (h ▸ hpname)
          cases args with
          | nil =>
              cases hd : q.default with
              | none => simpa [buildPosAux, hd] using ih [] j m hnd' hp
              | some d =>
                  simp only [buildPosAux, hd]
                  rw [ih [] j _ hnd' hp]
                  simp only [List.get?]
                  rw [mapLookup_insert_ne _ _ _ _ hne]
          | cons v vs =>
              simp only [buildPosAux, List.get?]
              rw [ih vs j _ hnd' hp, mapLookup_insert_ne _ _ _ _ hne]

theorem buildPosAux_take (ps : List ParameterMetadata) (args : List Value)
    (m : StrMap) :
    buildPosAux m ps args = buildPosAux m ps (args.take ps.length) := by
  induction ps generalizing m args with
  | nil => cases args <;> rfl
  | cons p ps ih =>
      cases args with
      | nil => rfl
      | cons v vs => simpa [buildPosAux] using ih vs (mapInsert m p.name v)

/-! ## Lemmas about the structural coercion -/

theorem coerce_of_hasType (t : FieldType) (v : Value)
    (h : valueHasType t v = true) : coerceValue t v = some v := by
  cases t <;> cases v <;> simp_all [valueHasType, coerceValue]

theorem isNull_of_hasType_tAny (v : Value) (t : FieldType)
    (h : valueHasType t v = true) (hv : v.isNull = true) :
    t = .tAny ∧ v = .null := by
  cases t <;> cases v <;> simp_all [valueHasType, Value.isNull]

theorem fieldFor_mem (s : List FieldSpec) (k : String) (f : FieldSpec)
    (h : fieldFor s k = some f) : f ∈ s := by
  unfold fieldFor at h
  cases h1 : s.find? (fun f => f.name = k) with
  | some g =>
      rw [h1] at h
      cases h
      exact List.mem_of_find?_eq_some h1
  | none =>
      rw [h1] at h
      exact List.mem_of_find?_eq_some h

theorem fieldFor_exact (s : List FieldSpec) (f : FieldSpec)
    (hmem : f ∈ s) (hnd : (s.map (fun g => g.name)).Nodup) :
    fieldFor s f.name = some f := by
  have hsome : (s.find? (fun g => g.name = f.name)).isSome := by
    rw [List.find?_isSome]
    exact ⟨f, hmem, by simp⟩
  cases h1 : s.find? (fun g => g.name = f.name) with
  | none => rw [h1] at hsome; simp at hsome
  | some g =>
      have hg : g ∈ s := List.mem_of_find?_eq_some h1
      have hgn : g.name = f.name := by simpa using List.find?_some h1
      have : g = f := List.inj_on_of_nodup_map hnd hg hmem hgn
      subst this
      unfold fieldFor
      rw [h1]

theorem recSet_not_mem (r : StrMap) (k : String) (v : Value)
    (hk : k ∉ r.map Prod.fst) : recSet r k v = r := by
  induction r with
  | nil => rfl
  | cons kv rest ih =>
      obtain ⟨k', v'⟩ := kv
      simp only [List.map_cons, List.mem_cons, not_or] at hk
      have hne : k' ≠ k := fun h => hk.1 h.symm
      simp [recSet, hne, ih hk.2]

theorem unmarshalInto_append (s : List FieldSpec) (acc : StrMap)
    (l1 l2 : StrMap) :
    unmarshalInto s acc (l1 ++ l2) =
      match unmarshalInto s acc l1 with
      | some a => unmarshalInto s a l2
      | none => none := by
  induction l1 generalizing acc with
  | nil => simp [unmarshalInto]
  | cons kv rest ih =>
      obtain ⟨k, v⟩ := kv
      simp only [List.cons_append, unmarshalInto]
      cases hf : fieldFor s k with
      | none => simp only [hf]; exact ih acc
      | some f =>
          simp only [hf]
          by_cases hv : v.isNull
          · simp only [hv, if_true]
            exact ih acc
          · simp only [hv, if_false, Bool.false_eq_true]
            cases hc : coerceValue f.ftype v with
            | none => simp only [hc]
            | some v' => simp only [hc]; exact ih _

theorem unmarshalInto_lookup_untouched (s : List FieldSpec) (src : StrMap)
    (acc out : StrMap) (k : String)
    (hout : unmarshalInto s acc src = some out)
    (hk : ∀ kv ∈ src, ∀ f, fieldFor s kv.1 = some f → f.name ≠ k) :
    mapLookup out k = mapLookup acc k := by
  induction src generalizing acc with
  | nil =>
      simp only [unmarshalInto] at hout
      cases hout
      rfl
  | cons kv rest ih =>
      obtain ⟨kk, v⟩ := kv
      simp only [unmarshalInto] at hout
      have hkrest : ∀ kv ∈ rest, ∀ f, fieldFor s kv.1 = some f → f.name ≠ k :=
        fun kv hm f hf => hk kv (List.mem_cons_of_mem _ hm) f hf
      cases hf : fieldFor s kk with
      | none =>
          rw [hf] at hout
          exact ih _ hout hkrest
      | some f =>
          simp only [hf] at hout
          have hfk : f.name ≠ k := hk (kk, v) (List.mem_cons_self _ _) f hf
          by_cases hv : v.isNull
          · rw [if_pos hv] at hout
            exact ih _ hout hkrest
          · rw [if_neg hv] at hout
            cases hc : coerceValue f.ftype v with
            | none => rw [hc] at hout; cases hout
            | some v' =>
                rw [hc] at hout
                rw [ih _ hout hkrest, recSet_lookup_ne _ _ _ _ hfk]

theorem unmarshalInto_keys (s : List FieldSpec) (src : StrMap)
    (acc out : StrMap) (hout : unmarshalInto s acc src = some out) :
    out.map Prod.fst = acc.map Prod.fst := by
  induction src generalizing acc with
  | nil =>
      simp only [unmarshalInto] at hout
      cases hout
      rfl
  | cons kv rest ih =>
      obtain ⟨kk, v⟩ := kv
      simp only [unmarshalInto] at hout
      cases hf : fieldFor s kk with
      | none =>
          rw [hf] at hout
          exact ih _ hout
      | some f =>
          simp only [hf] at hout
          by_cases hv : v.isNull
          · rw [if_pos hv] at hout
            exact ih _ hout
          · rw [if_neg hv] at hout
            cases hc : coerceValue f.ftype v with
            | none => rw [hc] at hout; cases hout
            | some v' =>
                rw [hc] at hout
                rw [ih _ hout, recSet_keys]

theorem unmarshalInto_exact (s : List FieldSpec) (src : StrMap) (acc : StrMap)
    (hnd : (s.map (fun f => f.name)).Nodup)
    (h1 : ∀ kv ∈ src, ∃ f ∈ s, f.name = kv.1 ∧ valueHasType f.ftype kv.2 = true) :
    unmarshalInto s acc src = some (applySrc acc src) := by
  induction src generalizing acc with
  | nil => rfl
  | cons kv rest ih =>
      obtain ⟨k, v⟩ := kv
      obtain ⟨f, hfs, hfn, hft⟩ := h1 (k, v) (List.mem_cons_self _ _)
      have h1' : ∀ kv ∈ rest, ∃ f ∈ s, f.name = kv.1 ∧ valueHasType f.ftype kv.2 = true :=
        fun kv hm => h1 kv (List.mem_cons_of_mem _ hm)
      have hff : fieldFor s k = some f := by
        simpa [hfn] using fieldFor_exact s f hfs hnd
      simp only [unmarshalInto, applySrc, hff]
      by_cases hv : v.isNull
      · simp only [hv, if_true]
        exact ih _ h1'
      · simp only [hv, if_false, Bool.false_eq_true,
          coerce_of_hasType f.ftype v hft, hfn]
        exact ih _ h1'

theorem applySrc_cons_not_mem (k : String) (v : Value) (acc src : StrMap)
    (hk : ∀ kv ∈ src, kv.1 ≠ k) :
    applySrc ((k, v) :: acc) src = (k, v) :: applySrc acc src := by
  induction src generalizing acc with
  | nil => rfl
  | cons kv rest ih =>
      obtain ⟨k', v'⟩ := kv
      have hk' : k' ≠ k := hk (k', v') (List.mem_cons_self _ _)
      have hkrest : ∀ kv ∈ rest, kv.1 ≠ k :=
        fun kv hm => hk kv (List.mem_cons_of_mem _ hm)
      simp only [applySrc]
      by_cases hv : v'.isNull
      · simp only [hv, if_true]
        exact ih _ hkrest
      · have hne : ¬ k = k' := fun h => hk' h.symm
        simp only [hv, if_false, Bool.false_eq_true, recSet, if_neg hne]
        exact ih _ hkrest

theorem zeroRec_cons (f : FieldSpec) (s : List FieldSpec) :
    zeroRec (f :: s) = (f.name, zeroOf f.ftype) :: zeroRec s := rfl

theorem applySrc_exact (s : List FieldSpec) (src : StrMap)
    (hnd : (s.map (fun f => f.name)).Nodup)
    (hkeys : src.map Prod.fst = s.map (fun f => f.name))
    (htyped : ∀ pr ∈ src.zip s, valueHasType pr.2.ftype pr.1.2 = true) :
    applySrc (zeroRec s) src = src := by
  induction s generalizing src with
  | nil =>
      cases src with
      | nil => rfl
      | cons kv rest => simp at hkeys
  | cons f srest ih =>
      cases src with
      | nil => simp at hkeys
      | cons kv rest =>
          obtain ⟨k, v⟩ := kv
          simp only [List.map_cons, List.cons.injEq] at hkeys
          obtain ⟨hk, hkeys'⟩ := hkeys
          subst hk
          simp only [List.map_cons, List.nodup_cons] at hnd
          obtain ⟨hf, hnd'⟩ := hnd
          have hvt : valueHasType f.ftype v = true :=
            htyped ((f.name, v), f) (by simp [List.zip_cons_cons])
          have htyped' : ∀ pr ∈ rest.zip srest, valueHasType pr.2.ftype pr.1.2 = true :=
            fun pr hm => htyped pr (by simp [List.zip_cons_cons, hm])
          have hrestk : ∀ kv ∈ rest, kv.1 ≠ f.name := by
            intro kv hm heq
            have : kv.1 ∈ rest.map Prod.fst := List.mem_map_of_mem _ hm
            rw [hkeys', heq] at this
            exact hf this
          have hzk : f.name ∉ (zeroRec srest).map Prod.fst := by
            simpa [zeroRec, List.map_map, Function.comp] using hf
          rw [zeroRec_cons]
          simp only [applySrc]
          by_cases hv : v.isNull
          · obtain ⟨hta, hvn⟩ := isNull_of_hasType_tAny v f.ftype hvt hv
            subst hvn
            rw [if_pos hv]
            have hz : zeroOf f.ftype = Value.null := by rw [hta]; rfl
            rw [hz, applySrc_cons_not_mem f.name Value.null (zeroRec srest) rest hrestk,
              ih rest hnd' hkeys' htyped']
          · rw [if_neg hv]
            have hstep : recSet ((f.name, zeroOf f.ftype) :: zeroRec srest) f.name v
                = (f.name, v) :: zeroRec srest := by
              simp [recSet, recSet_not_mem _ _ _ hzk]
            rw [hstep, applySrc_cons_not_mem f.name v (zeroRec srest) rest hrestk,
              ih rest hnd' hkeys' htyped']

theorem zeroRec_lookup (s : List FieldSpec) (f : FieldSpec)
    (hmem : f ∈ s) (hnd : (s.map (fun g => g.name)).Nodup) :
    mapLookup (zeroRec s) f.name = some (zeroOf f.ftype) := by
  induction s with
  | nil => simp at hmem
  | cons g srest ih =>
      simp only [List.map_cons, List.nodup_cons] at hnd
      obtain ⟨hg, hnd'⟩ := hnd
      rw [zeroRec_cons]
      rcases List.mem_cons.mp hmem with heq | hmem'
      · subst heq
        simp [mapLookup]
      · have hne : g.name ≠ f.name := by
          intro h
          refine hg ?_
          rw [h]
          exact List.mem_map_of_mem _ hmem'
        simp only [mapLookup, if_neg hne]
        exact ih hmem' hnd'

/-! ## Claim theorems -/

/-- C9: for every command name not present in the registry, `Route`
returns an unknown-command error with a nil result; and the outcome is
the same whatever behaviour any registered handler has, i.e. no
handler is invoked during that call. -/
theorem routeC9_unknown_command
    (r : Registry) (ctx : Context) (c : String) (args : List Value)
    (hc : lookupCmd r c = none) :
    Route r ctx c args = (none, some ("unknown command: " ++ c))
    ∧ ∀ g, Route (reassignHandlers g r) ctx c args
        = (none, some ("unknown command: " ++ c)) := by
  constructor
  · simp [Route, hc]
  · intro g
    simp [Route, lookupCmd_reassign_none g r c hc]

/-- Witness for C9 at the sample registry and the absent name
`missing`. -/
theorem routeC9_unknown_command_witness :
    lookupCmd sampleRegistry "missing" = none
    ∧ (Route sampleRegistry (Context.mk 0) "missing" []
        = (none, some ("unknown command: " ++ "missing"))
      ∧ ∀ g, Route (reassignHandlers g sampleRegistry) (Context.mk 0) "missing" []
          = (none, some ("unknown command: " ++ "missing"))) :=
  ⟨rfl, routeC9_unknown_command sampleRegistry (Context.mk 0) "missing" [] rfl⟩

/-- C5: the registry is append-only: registering an already-present
name fails with the duplicate-command error and leaves the registry
unchanged, and no call to `Register` ever replaces or removes an
existing entry. -/
theorem registerC5_append_only
    (r : Registry) (name : String) (h : HandlerV) (opts : List CommandOption)
    (hdup : (lookupCmd r name).isSome = true) :
    Register r name h opts = (r, some (.duplicate name))
    ∧ ∀ (n' : String) (h' : HandlerV) (o' : List CommandOption) (k : String),
        (lookupCmd r k).isSome = true →
        lookupCmd (Register r n' h' o').1 k = lookupCmd r k := by
  constructor
  · simp [Register, hdup]
  · intro n' h' o' k hk
    unfold Register
    cases hd : (lookupCmd r n').isSome with
    | true => simp
    | false =>
        simp only [Bool.false_eq_true, if_false]
        cases hv : validateHandler h'.htype with
        | some e => simp
        | none => simp [lookupCmd_append_of_isSome r _ k hk]

/-- Witness for C5: re-registering `calc` on the sample registry. -/
theorem registerC5_append_only_witness :
    (lookupCmd sampleRegistry "calc").isSome = true
    ∧ (Register sampleRegistry "calc" sampleHandler1 []
        = (sampleRegistry, some (.duplicate "calc"))
      ∧ ∀ (n' : String) (h' : HandlerV) (o' : List CommandOption) (k : String),
          (lookupCmd sampleRegistry k).isSome = true →
          lookupCmd (Register sampleRegistry n' h' o').1 k
            = lookupCmd sampleRegistry k) :=
  ⟨rfl, registerC5_append_only sampleRegistry "calc" sampleHandler1 [] rfl⟩

/-- C8: routing a typed-arg command with an empty raw argument list
still invokes the handler, handing it the zero value of the argument
shape, which equals the shape built from an empty keyed object. -/
theorem routeC8_empty_args
    (r : Registry) (ctx : Context) (c : String) (cmd : RegisteredCommand)
    (ty : GoType)
    (hc : lookupCmd r c = some cmd)
    (hty : cmd.argType = some ty)
    (h2 : cmd.handler.htype.numIn = 2) :
    bindArgs cmd [] = .ok (some (zeroRec ty.shape))
    ∧ unmarshalStruct ty.shape [] = some (zeroRec ty.shape)
    ∧ Route r ctx c []
        = extractResults (cmd.handler.run ctx (some (zeroRec ty.shape))) := by
  refine ⟨?_, rfl, ?_⟩
  · simp [bindArgs, hty, h2]
  · simp [Route, hc, invokeHandler, bindArgs, hty, h2]

/-- Witness for C8 at the sample registry's `calc` command. -/
theorem routeC8_empty_args_witness :
    lookupCmd sampleRegistry "calc" = some sampleCmd
    ∧ sampleCmd.argType = some argsTy
    ∧ sampleCmd.handler.htype.numIn = 2
    ∧ (bindArgs sampleCmd [] = .ok (some (zeroRec argsTy.shape))
      ∧ unmarshalStruct argsTy.shape [] = some (zeroRec argsTy.shape)
      ∧ Route sampleRegistry (Context.mk 1) "calc" []
          = extractResults
              (sampleCmd.handler.run (Context.mk 1) (some (zeroRec argsTy.shape)))) :=
  ⟨rfl, rfl, rfl,
    routeC8_empty_args sampleRegistry (Context.mk 1) "calc" sampleCmd argsTy
      rfl rfl rfl⟩

/-- C3: a first raw value that is already a keyed object is used
directly as the source object: the invocation outcome ignores all
further raw values and is unaffected by the declared parameter
metadata (so no positional zipping and no defaults are applied). -/
theorem invokeC3_keyed_object_direct
    (ctx : Context) (cmd : RegisteredCommand) (m : StrMap)
    (rest rest' : List Value) (ps : List ParameterMetadata) :
    sourceMap cmd.metadata.parameters (Value.obj m :: rest) = m
    ∧ invokeHandler ctx cmd (Value.obj m :: rest)
        = invokeHandler ctx cmd (Value.obj m :: rest')
    ∧ invokeHandler ctx (setParams cmd ps) (Value.obj m :: rest)
        = invokeHandler ctx cmd (Value.obj m :: rest) := by
  refine ⟨rfl, ?_, ?_⟩
  · cases hty : cmd.argType with
    | none => simp [invokeHandler, bindArgs, hty]
    | some ty =>
        by_cases h2 : cmd.handler.htype.numIn = 2
        · simp [invokeHandler, bindArgs, hty, h2, sourceMap]
        · simp [invokeHandler, bindArgs, hty, h2]
  · cases hty : cmd.argType with
    | none => simp [invokeHandler, bindArgs, setParams, hty]
    | some ty =>
        by_cases h2 : cmd.handler.htype.numIn = 2
        · simp [invokeHandler, bindArgs, setParams, hty, h2, sourceMap]
        · simp [invokeHandler, bindArgs, setParams, hty, h2]

/-- C4: when routing reaches a handler, `Route` returns exactly the
handler's two outputs through `extractResults`, which is the identity
on them: a nil first output stays absent, a non-nil first output is
the result, a nil error stays absent, and a present error is passed
through verbatim. -/
theorem routeC4_output_normalization
    (r : Registry) (ctx : Context) (c : String) (args : List Value)
    (cmd : RegisteredCommand) (argOpt : Option StrMap)
    (hc : lookupCmd r c = some cmd)
    (hbind : bindArgs cmd args = .ok argOpt) :
    Route r ctx c args = extractResults (cmd.handler.run ctx argOpt)
    ∧ (∀ v e, extractResults (v, e) = (v, e)) := by
  constructor
  · simp [Route, hc, invokeHandler, hbind]
  · intro v e
    cases v <;> cases e <;> rfl

/-- Witness for C4 at the sample `calc` command with one positional
argument. -/
theorem routeC4_output_normalization_witness :
    lookupCmd sampleRegistry "calc" = some sampleCmd
    ∧ bindArgs sampleCmd [Value.num 5]
        = .ok (some [("a", Value.num 5), ("b", Value.num 0)])
    ∧ (Route sampleRegistry (Context.mk 2) "calc" [Value.num 5]
        = extractResults
            (sampleCmd.handler.run (Context.mk 2)
              (some [("a", Value.num 5), ("b", Value.num 0)]))
      ∧ ∀ v e, extractResults (v, e) = (v, e)) :=
  ⟨rfl, rfl,
    routeC4_output_normalization sampleRegistry (Context.mk 2) "calc"
      [Value.num 5] sampleCmd (some [("a", Value.num 5), ("b", Value.num 0)])
      rfl rfl⟩

/-! ## Lemmas about signature validation -/

theorem ctx_first_arg_iff (u : GoType) :
    (u.kind = .kptr ∧ u.elemName = "Context") ↔
      ∃ pkg ie sh pe, u = .ptr (.named pkg "Context" ie sh) pe := by
  constructor
  · rintro ⟨hk, hn⟩
    cases u with
    | ptr e pe =>
        cases e with
        | named pkg nm ie sh =>
            simp only [GoType.elemName, GoType.tyName] at hn
            subst hn
            exact ⟨pkg, ie, sh, pe, rfl⟩
        | ptr a b => simp [GoType.elemName, GoType.tyName] at hn
        | func a b => simp [GoType.elemName, GoType.tyName] at hn
    | func a b => simp [GoType.kind] at hk
    | named p n b sh => simp [GoType.kind] at hk
  · rintro ⟨pkg, ie, sh, pe, rfl⟩
    exact ⟨rfl, rfl⟩

theorem validateHandler_none_iff (t : GoType) :
    validateHandler t = none ↔
      (t.kind = .kfunc ∧ 1 ≤ t.numIn ∧ t.numIn ≤ 2 ∧ t.numOut = 2 ∧
       ((t.inAt 0).getD dummyTy).kind = .kptr ∧
       ((t.inAt 0).getD dummyTy).elemName = "Context" ∧
       ((t.outAt 1).getD dummyTy).implementsError = true) := by
  unfold validateHandler
  by_cases h1 : t.kind ≠ GoKind.kfunc
  · rw [if_pos h1]
    constructor
    · intro h; simp at h
    · rintro ⟨hk, -⟩; exact absurd hk h1
  · rw [if_neg h1]
    push_neg at h1
    by_cases h2 : t.numIn < 1 ∨ 2 < t.numIn
    · rw [if_pos h2]
      constructor
      · intro h; simp at h
      · rintro ⟨-, ha, hb, -⟩
        rcases h2 with h2 | h2 <;> omega
    · rw [if_neg h2]
      push_neg at h2
      obtain ⟨ha, hb⟩ := h2
      by_cases h3 : t.numOut ≠ 2
      · rw [if_pos h3]
        constructor
        · intro h; simp at h
        · rintro ⟨-, -, -, ho, -⟩; exact absurd ho h3
      · rw [if_neg h3]
        push_neg at h3
        by_cases h4 : ((t.inAt 0).getD dummyTy).kind ≠ GoKind.kptr ∨
            ((t.inAt 0).getD dummyTy).elemName ≠ "Context"
        · rw [if_pos h4]
          constructor
          · intro h; simp at h
          · rintro ⟨-, -, -, -, hc, hd, -⟩
            rcases h4 with h4 | h4
            · exact absurd hc h4
            · exact absurd hd h4
        · rw [if_neg h4]
          push_neg at h4
          obtain ⟨hc, hd⟩ := h4
          by_cases h5 : ¬ ((t.outAt 1).getD dummyTy).implementsError = true
          · rw [if_pos h5]
            constructor
            · intro h; simp at h
            · rintro ⟨-, -, -, -, -, -, he⟩; exact absurd he h5
          · rw [if_neg h5]
            push_neg at h5
            constructor
            · intro h
              exact ⟨h1, by omega, by omega, h3, hc, hd, h5⟩
            · intro h
              rfl

theorem validate_iff_spec (t : GoType) :
    validateHandler t = none ↔ specValidSignature t = true := by
  rw [validateHandler_none_iff]
  cases t with
  | ptr e b => simp [GoType.kind, specValidSignature]
  | named p n b sh => simp [GoType.kind, specValidSignature]
  | func ins outs =>
      cases ins with
      | nil => simp [GoType.numIn, specValidSignature]
      | cons u rest =>
          cases outs with
          | nil => simp [GoType.numOut, specValidSignature]
          | cons o0 outs1 =>
              cases outs1 with
              | nil => simp [GoType.numOut, specValidSignature]
              | cons o1 outs2 =>
                  cases outs2 with
                  | cons o2 outs3 => simp [GoType.numOut, specValidSignature]
                  | nil =>
                      cases u with
                      | ptr e pe =>
                          cases e with
                          | named pkg nm ie sh =>
                              simp [specValidSignature, GoType.numIn, GoType.numOut,
                                GoType.inAt, GoType.outAt, GoType.kind, GoType.elemName,
                                GoType.tyName, List.get?]
                              constructor
                              · rintro ⟨hl, hn, ho⟩
                                refine ⟨⟨?_, hn⟩, ho⟩
                                rcases Nat.le_one_iff_eq_zero_or_eq_one.mp hl with h | h
                                · exact Or.inl (List.length_eq_zero.mp h)
                                · exact Or.inr h
                              · rintro ⟨⟨hl, hn⟩, ho⟩
                                refine ⟨?_, hn, ho⟩
                                rcases hl with h | h
                                · simp [h]
                                · omega
                          | ptr a b2 =>
                              simp [specValidSignature, GoType.numIn, GoType.numOut,
                                GoType.inAt, GoType.outAt, GoType.kind, GoType.elemName,
                                GoType.tyName, List.get?]
                          | func a b2 =>
                              simp [specValidSignature, GoType.numIn, GoType.numOut,
                                GoType.inAt, GoType.outAt, GoType.kind, GoType.elemName,
                                GoType.tyName, List.get?]
                      | func a b2 =>
                          simp [specValidSignature, GoType.numIn, GoType.numOut,
                            GoType.inAt, GoType.outAt, GoType.kind, GoType.elemName,
                            GoType.tyName, List.get?]
                      | named p n b2 sh =>
                          simp [specValidSignature, GoType.numIn, GoType.numOut,
                            GoType.inAt, GoType.outAt, GoType.kind, GoType.elemName,
                            GoType.tyName, List.get?]

/-- C1: with a fresh name, `Register` accepts a handler exactly when
the specification's signature condition holds (a function with one or
two inputs, first input `*Context`, exactly two outputs, second
output implementing `error`); a rejected handler yields the signature
validation error, which is never the duplicate error, and the
registry is left unchanged. -/
theorem registerC1_signature_validation
    (r : Registry) (name : String) (h : HandlerV) (opts : List CommandOption)
    (hdup : lookupCmd r name = none) :
    (Register r name h opts).2 = validateHandler h.htype
    ∧ ((Register r name h opts).2 = none ↔ specValidSignature h.htype = true)
    ∧ ((Register r name h opts).2 ≠ none → (Register r name h opts).1 = r)
    ∧ (∀ (t : GoType) (n : String), validateHandler t ≠ some (.duplicate n)) := by
  have hreg2 : (Register r name h opts).2 = validateHandler h.htype := by
    unfold Register
    rw [hdup]
    simp only [Option.isSome_none, Bool.false_eq_true, if_false]
    cases hv : validateHandler h.htype <;> simp
  refine ⟨hreg2, ?_, ?_, ?_⟩
  · rw [hreg2]
    exact validate_iff_spec h.htype
  · intro hne
    unfold Register
    rw [hdup]
    simp only [Option.isSome_none, Bool.false_eq_true, if_false]
    cases hv : validateHandler h.htype with
    | some e => simp
    | none =>
        rw [hreg2, hv] at hne
        exact absurd rfl hne
  · intro t n
    unfold validateHandler
    split_ifs <;> simp

/-- Witness for C1 at the empty registry with the sample two-input
handler (accepted) — its hypothesis and conclusion instantiated. -/
theorem registerC1_signature_validation_witness :
    lookupCmd [] "ping" = none
    ∧ ((Register [] "ping" sampleHandler []).2 = validateHandler sampleHandler.htype
      ∧ ((Register [] "ping" sampleHandler []).2 = none
          ↔ specValidSignature sampleHandler.htype = true)
      ∧ ((Register [] "ping" sampleHandler []).2 ≠ none
          → (Register [] "ping" sampleHandler []).1 = [])
      ∧ (∀ (t : GoType) (n : String), validateHandler t ≠ some (.duplicate n))) :=
  ⟨rfl, registerC1_signature_validation [] "ping" sampleHandler [] rfl⟩

/-- C10: with valid arity and output count, signature validation gets
past the first-argument check exactly when the first input is a
pointer to a named type whose declared name is `Context`, whatever
package declares it; any non-pointer first input — including a
`Context` value — fails with the first-argument error. -/
theorem registerC10_context_by_name
    (t : GoType) (rest outs : List GoType)
    (harity : rest.length ≤ 1) (houts : outs.length = 2) :
    ((validateHandler (.func (t :: rest) outs) = none ∨
      validateHandler (.func (t :: rest) outs) = some .secondOut)
      ↔ ∃ pkg ie sh pe, t = .ptr (.named pkg "Context" ie sh) pe)
    ∧ ∀ pkg ie sh,
        validateHandler (.func ((.named pkg "Context" ie sh) :: rest) outs)
          = some .firstArg := by
  have hval : ∀ u : GoType, validateHandler (.func (u :: rest) outs) =
      (if u.kind ≠ GoKind.kptr ∨ u.elemName ≠ "Context" then some .firstArg
       else if ¬ ((outs.get? 1).getD dummyTy).implementsError then some .secondOut
       else none) := by
    intro u
    unfold validateHandler
    rw [if_neg (by simp [GoType.kind]),
      if_neg (by simp only [GoType.numIn, List.length_cons]; omega),
      if_neg (by simp [GoType.numOut, houts])]
    simp [GoType.inAt, GoType.outAt, List.get?]
  constructor
  · rw [hval t]
    by_cases hc : t.kind ≠ GoKind.kptr ∨ t.elemName ≠ "Context"
    · rw [if_pos hc]
      constructor
      · rintro (h | h) <;> simp at h
      · intro hex
        obtain ⟨hk, hn⟩ := (ctx_first_arg_iff t).mpr hex
        rcases hc with hc | hc
        · exact absurd hk hc
        · exact absurd hn hc
    · rw [if_neg hc]
      push_neg at hc
      constructor
      · intro h
        exact (ctx_first_arg_iff t).mp hc
      · intro h
        by_cases himpl : ¬ ((outs.get? 1).getD dummyTy).implementsError = true
        · rw [if_pos himpl]
          exact Or.inr rfl
        · rw [if_neg himpl]
          exact Or.inl rfl
  · intro pkg ie sh
    rw [hval (.named pkg "Context" ie sh)]
    rw [if_pos (Or.inl (by simp [GoType.kind]))]

/-- Witness for C10 with no extra inputs and the sample output pair;
instantiates the iff at a `*sdk.Context` first input. -/
theorem registerC10_context_by_name_witness :
    ([] : List GoType).length ≤ 1
    ∧ ([anyTy, errTy] : List GoType).length = 2
    ∧ (((validateHandler (.func [ctxPtrTy] [anyTy, errTy]) = none ∨
        validateHandler (.func [ctxPtrTy] [anyTy, errTy]) = some .secondOut)
        ↔ ∃ pkg ie sh pe, ctxPtrTy = .ptr (.named pkg "Context" ie sh) pe)
      ∧ ∀ pkg ie sh,
          validateHandler (.func [(.named pkg "Context" ie sh : GoType)] [anyTy, errTy])
            = some .firstArg) :=
  ⟨by decide, rfl,
    registerC10_context_by_name ctxPtrTy [] [anyTy, errTy] (by decide) rfl⟩

/-- C2: for a non-empty argument list whose first value is not a
keyed object, the binder's source object is the positional zip of the
declared parameters against the raw values: a value present at index
i binds to parameter i's name (taking precedence over any default),
an absent value falls back to the declared default, and otherwise the
field is left unbound; raw values beyond the declared parameter count
are ignored. -/
theorem invokeC2_positional_zip
    (cmd : RegisteredCommand) (args : List Value)
    (hnd : (cmd.metadata.parameters.map (fun p => p.name)).Nodup)
    (hargs : args ≠ [])
    (hnotobj : ∀ m, args.head? ≠ some (Value.obj m)) :
    sourceMap cmd.metadata.parameters args
        = buildPositional cmd.metadata.parameters args
    ∧ (∀ i p, cmd.metadata.parameters.get? i = some p →
        mapLookup (buildPositional cmd.metadata.parameters args) p.name =
          match args.get? i with
          | some v => some v
          | none => p.default)
    ∧ buildPositional cmd.metadata.parameters args
        = buildPositional cmd.metadata.parameters
            (args.take cmd.metadata.parameters.length) := by
  refine ⟨?_, ?_, buildPosAux_take _ _ _⟩
  · cases args with
    | nil => exact absurd rfl hargs
    | cons a rest =>
        cases a with
        | obj m => exact absurd rfl (hnotobj m)
        | null => rfl
        | bool b => rfl
        | num n => rfl
        | str s => rfl
        | arr l => rfl
  · intro i p hp
    rw [buildPositional, buildPosAux_lookup _ args i p [] hnd hp]
    cases args.get? i with
    | some v => rfl
    | none =>
        cases p.default with
        | some d => rfl
        | none => rfl

/-- Witness for C2 at the sample command called with the single
positional argument 5 (the specification's own worked example). -/
theorem invokeC2_positional_zip_witness :
    (sampleCmd.metadata.parameters.map (fun p => p.name)).Nodup
    ∧ ([Value.num 5] : List Value) ≠ []
    ∧ (∀ m, ([Value.num 5] : List Value).head? ≠ some (Value.obj m))
    ∧ (sourceMap sampleCmd.metadata.parameters [Value.num 5]
          = buildPositional sampleCmd.metadata.parameters [Value.num 5]
      ∧ (∀ i p, sampleCmd.metadata.parameters.get? i = some p →
          mapLookup (buildPositional sampleCmd.metadata.parameters
              [Value.num 5]) p.name =
            match ([Value.num 5] : List Value).get? i with
            | some v => some v
            | none => p.default)
      ∧ buildPositional sampleCmd.metadata.parameters [Value.num 5]
          = buildPositional sampleCmd.metadata.parameters
              (([Value.num 5] : List Value).take
                sampleCmd.metadata.parameters.length)) :=
  ⟨by decide, List.cons_ne_nil _ _,
    fun m h => Value.noConfusion (Option.some.inj h),
    invokeC2_positional_zip sampleCmd [Value.num 5] (by decide)
      (List.cons_ne_nil _ _)
      (fun m h => Value.noConfusion (Option.some.inj h))⟩

/-! ## Further helper lemmas -/

theorem exact_src_fields (s : List FieldSpec) (src : StrMap)
    (hkeys : src.map Prod.fst = s.map (fun f => f.name))
    (htyped : ∀ pr ∈ src.zip s, valueHasType pr.2.ftype pr.1.2 = true) :
    ∀ kv ∈ src, ∃ f ∈ s, f.name = kv.1 ∧ valueHasType f.ftype kv.2 = true := by
  induction s generalizing src with
  | nil =>
      cases src with
      | nil => intro kv h; simp at h
      | cons a b => simp at hkeys
  | cons f srest ih =>
      cases src with
      | nil => simp at hkeys
      | cons kv rest =>
          simp only [List.map_cons, List.cons.injEq] at hkeys
          obtain ⟨hk, hkeys'⟩ := hkeys
          intro kv' hm
          rcases List.mem_cons.mp hm with heq | hm'
          · subst heq
            exact ⟨f, List.mem_cons_self _ _, hk.symm,
              htyped (kv', f) (by simp [List.zip_cons_cons])⟩
          · obtain ⟨g, hg, hgn, hgt⟩ :=
              ih rest hkeys'
                (fun pr hpr => htyped pr (by simp [List.zip_cons_cons, hpr]))
                kv' hm'
            exact ⟨g, List.mem_cons_of_mem _ hg, hgn, hgt⟩

theorem buildPosAux_eq_of_names_defaults (ps ps' : List ParameterMetadata)
    (h : ps.map (fun p => (p.name, p.default))
        = ps'.map (fun p => (p.name, p.default))) :
    ∀ (m : StrMap) (args : List Value),
      buildPosAux m ps args = buildPosAux m ps' args := by
  induction ps generalizing ps' with
  | nil =>
      cases ps' with
      | nil => intro m args; rfl
      | cons q qs => simp at h
  | cons p ps ih =>
      cases ps' with
      | nil => simp at h
      | cons q qs =>
          simp only [List.map_cons, List.cons.injEq, Prod.mk.injEq] at h
          obtain ⟨⟨hn, hd⟩, h'⟩ := h
          intro m args
          cases args with
          | nil =>
              simp only [buildPosAux, hn, hd]
              cases hq : q.default with
              | none => exact ih qs h' m []
              | some d => exact ih qs h' _ []
          | cons v vs =>
              simp only [buildPosAux, hn]
              exact ih qs h' _ vs

theorem sourceMap_eq_of_names_defaults (ps qs : List ParameterMetadata)
    (args : List Value)
    (h : ps.map (fun p => (p.name, p.default))
        = qs.map (fun p => (p.name, p.default))) :
    sourceMap ps args = sourceMap qs args := by
  unfold sourceMap
  cases hh : args.head? with
  | none => exact buildPosAux_eq_of_names_defaults ps qs h [] args
  | some a =>
      cases a with
      | obj m => rfl
      | null => exact buildPosAux_eq_of_names_defaults ps qs h [] args
      | bool b => exact buildPosAux_eq_of_names_defaults ps qs h [] args
      | num n => exact buildPosAux_eq_of_names_defaults ps qs h [] args
      | str s => exact buildPosAux_eq_of_names_defaults ps qs h [] args
      | arr l => exact buildPosAux_eq_of_names_defaults ps qs h [] args

/-- C6: round-trip idempotence of the structural coercion: binding a
keyed object whose fields exactly match the target argument shape
(same names in declaration order, values already of the field types)
and coercing it into that shape reproduces the object unchanged, and
the handler receives exactly those fields. -/
theorem invokeC6_roundtrip_identity
    (ctx : Context) (cmd : RegisteredCommand) (ty : GoType) (src : StrMap)
    (hty : cmd.argType = some ty)
    (h2 : cmd.handler.htype.numIn = 2)
    (hnd : (ty.shape.map (fun f => f.name)).Nodup)
    (hkeys : src.map Prod.fst = ty.shape.map (fun f => f.name))
    (htyped : ∀ pr ∈ src.zip ty.shape, valueHasType pr.2.ftype pr.1.2 = true) :
    unmarshalStruct ty.shape src = some src
    ∧ bindArgs cmd [Value.obj src] = .ok (some src)
    ∧ invokeHandler ctx cmd [Value.obj src]
        = extractResults (cmd.handler.run ctx (some src)) := by
  have hums : unmarshalStruct ty.shape src = some src := by
    rw [unmarshalStruct,
      unmarshalInto_exact ty.shape src (zeroRec ty.shape) hnd
        (exact_src_fields ty.shape src hkeys htyped),
      applySrc_exact ty.shape src hnd hkeys htyped]
  have hbind : bindArgs cmd [Value.obj src] = .ok (some src) := by
    simp [bindArgs, hty, h2, sourceMap, hums]
  exact ⟨hums, hbind, by simp [invokeHandler, hbind]⟩

/-- Witness for C6: the sample command bound with a keyed object whose
two integer fields already match the `Args` shape exactly. -/
theorem invokeC6_roundtrip_identity_witness :
    sampleCmd.argType = some argsTy
    ∧ sampleCmd.handler.htype.numIn = 2
    ∧ (argsTy.shape.map (fun f => f.name)).Nodup
    ∧ ([("a", Value.num 5), ("b", Value.num 7)] : StrMap).map Prod.fst
        = argsTy.shape.map (fun f => f.name)
    ∧ (∀ pr ∈ ([("a", Value.num 5), ("b", Value.num 7)] : StrMap).zip argsTy.shape,
        valueHasType pr.2.ftype pr.1.2 = true)
    ∧ (unmarshalStruct argsTy.shape [("a", Value.num 5), ("b", Value.num 7)]
          = some [("a", Value.num 5), ("b", Value.num 7)]
      ∧ bindArgs sampleCmd [Value.obj [("a", Value.num 5), ("b", Value.num 7)]]
          = .ok (some [("a", Value.num 5), ("b", Value.num 7)])
      ∧ invokeHandler (Context.mk 3) sampleCmd
            [Value.obj [("a", Value.num 5), ("b", Value.num 7)]]
          = extractResults (sampleCmd.handler.run (Context.mk 3)
              (some [("a", Value.num 5), ("b", Value.num 7)]))) :=
  ⟨rfl, rfl, by decide, rfl, by decide,
    invokeC6_roundtrip_identity (Context.mk 3) sampleCmd argsTy
      [("a", Value.num 5), ("b", Value.num 7)] rfl rfl (by decide) rfl (by decide)⟩

/-- C7: the binder never enforces `ParameterMetadata.Required`: the
invocation outcome depends only on parameter names and defaults (so
changing required flags changes nothing); a field bound by no source
entry is left at its zero value when coercion succeeds; an unknown
source field is dropped without affecting the result; and a
successful binding always reaches the handler. -/
theorem invokeC7_required_not_enforced
    (ctx : Context) (cmd : RegisteredCommand) (args : List Value)
    (s : List FieldSpec) (hnd : (s.map (fun f => f.name)).Nodup) :
    (∀ ps, ps.map (fun p => (p.name, p.default))
        = cmd.metadata.parameters.map (fun p => (p.name, p.default)) →
      invokeHandler ctx (setParams cmd ps) args = invokeHandler ctx cmd args)
    ∧ (∀ src out f, unmarshalStruct s src = some out → f ∈ s →
        (∀ kv ∈ src, fieldFor s kv.1 ≠ some f) →
        mapLookup out f.name = some (zeroOf f.ftype))
    ∧ (∀ src1 src2 k v, fieldFor s k = none →
        unmarshalStruct s (src1 ++ (k, v) :: src2)
          = unmarshalStruct s (src1 ++ src2))
    ∧ (∀ out, bindArgs cmd args = .ok (some out) →
        invokeHandler ctx cmd args
          = extractResults (cmd.handler.run ctx (some out))) := by
  refine ⟨?_, ?_, ?_, ?_⟩
  · intro ps hps
    have hsm : sourceMap ps args = sourceMap cmd.metadata.parameters args :=
      sourceMap_eq_of_names_defaults ps cmd.metadata.parameters args hps
    have hb : bindArgs (setParams cmd ps) args = bindArgs cmd args := by
      unfold bindArgs
      simp only [setParams]
      rw [hsm]
    unfold invokeHandler
    simp only [setParams] at hb ⊢
    rw [hb]
  · intro src out f hout hf hnone
    have huntouched : mapLookup out f.name = mapLookup (zeroRec s) f.name := by
      refine unmarshalInto_lookup_untouched s src (zeroRec s) out f.name hout ?_
      intro kv hm g hg heq
      have hgmem : g ∈ s := fieldFor_mem s kv.1 g hg
      have hgf : g = f := List.inj_on_of_nodup_map hnd hgmem hf heq
      subst hgf
      exact hnone kv hm hg
    rw [huntouched, zeroRec_lookup s f hf hnd]
  · intro src1 src2 k v hkn
    unfold unmarshalStruct
    rw [unmarshalInto_append, unmarshalInto_append]
    cases ha : unmarshalInto s (zeroRec s) src1 with
    | none => rfl
    | some a => simp [unmarshalInto, hkn]
  · intro out hb
    simp [invokeHandler, hb]

/-- Witness for C7 at the sample command and shape. -/
theorem invokeC7_required_not_enforced_witness :
    (shapeAB.map (fun f => f.name)).Nodup
    ∧ ((∀ ps, ps.map (fun p => (p.name, p.default))
          = sampleCmd.metadata.parameters.map (fun p => (p.name, p.default)) →
        invokeHandler (Context.mk 4) (setParams sampleCmd ps) [Value.num 5]
          = invokeHandler (Context.mk 4) sampleCmd [Value.num 5])
      ∧ (∀ src out f, unmarshalStruct shapeAB src = some out → f ∈ shapeAB →
          (∀ kv ∈ src, fieldFor shapeAB kv.1 ≠ some f) →
          mapLookup out f.name = some (zeroOf f.ftype))
      ∧ (∀ src1 src2 k v, fieldFor shapeAB k = none →
          unmarshalStruct shapeAB (src1 ++ (k, v) :: src2)
            = unmarshalStruct shapeAB (src1 ++ src2))
      ∧ (∀ out, bindArgs sampleCmd [Value.num 5] = .ok (some out) →
          invokeHandler (Context.mk 4) sampleCmd [Value.num 5]
            = extractResults (sampleCmd.handler.run (Context.mk 4) (some out)))) :=
  ⟨by decide,
    invokeC7_required_not_enforced (Context.mk 4) sampleCmd [Value.num 5]
      shapeAB (by decide)⟩
